import Mathlib

/-!
# Verification of the options-analytics core of `trend_analysis`

Shallow embedding of the core algorithms of
`backend/services/futu_service.py` and
`backend/services/options_data_service.py`:

* `RateLimiter.acquire` (futu_service.py lines 35-66): timestamps are
  rationals (Python floats are exact rationals); a call of `acquire` is an
  `AcquireEvent` carrying the clock reading at entry (`now`), the clock
  reading after the potential sleep (`wake`, constrained by the guarantee
  that `asyncio.sleep(s)` suspends for at least `s` seconds), and the
  timestamp recorded by the final `self.calls.append(time.time())` (`tRec`).
* the persisted OI cache and `compute_delta_oi` (lines 91-152): one symbol's
  cache slice `{dateString: oi}` is an insertion-ordered association list
  `List (ℤ × ℤ)`; ISO date strings compare lexicographically, which agrees
  with the integer day-number order used here.
* `_normalize_iv`, `_variance_interpolation`, `_interpolate_iv`
  (lines 157-228): IVs are rationals; the single float square root is
  embedded as `Real.sqrt`.
* `_pick_atm_iv_by_delta` (lines 242-275) and the strike-distance ATM
  fallback inside `get_option_iv_data` (lines 664-685): a contract snapshot
  keeps only the two fields the code reads (delta, IV), each `Option ℚ`
  mirroring `_get_snapshot_value` returning `None` for absent fields.
* `calculate_positioning_score`'s aggregation loop (lines 759-809): a chain
  row keeps its expiry day number, optional open interest, and whether the
  option-type string contains "CALL".
* `OptionsDataService._try_with_fallback` (options_data_service.py lines
  88-141): a provider is its `enabled` flag, whether `getattr` finds the
  method, and the outcome of awaiting it, `Except String (Option R)`, so
  that the `try/except` of the source is explicit.
-/

/-! ## RateLimiter (futu_service.py lines 35-66) -/

/-- `self.calls = [t for t in self.calls if now - t < self.period_seconds]`. -/
def pruneCalls (period now : ℚ) (calls : List ℚ) : List ℚ :=
  calls.filter (fun t => now - t < period)

/-- `sleep_seconds = self.period_seconds - (now - self.calls[0]) + 0.1`,
read off the already-pruned list; `headD 0` stands for `self.calls[0]`
(the Python code would raise IndexError on an empty list, which cannot
happen when `max_calls ≥ 1`). -/
def sleepSecondsOf (period now : ℚ) (pruned : List ℚ) : ℚ :=
  period - (now - pruned.headD 0) + 1 / 10

/-- One call of `acquire()`: clock at entry, clock after the sleep (if the
branch sleeps), and the timestamp recorded at the end. -/
structure AcquireEvent where
  now : ℚ
  wake : ℚ
  tRec : ℚ
  deriving DecidableEq

/-- Body of `RateLimiter.acquire` (lines 49-66). -/
def acquireStep (maxCalls : ℕ) (period : ℚ) (calls : List ℚ) (e : AcquireEvent) : List ℚ :=
  if maxCalls ≤ (pruneCalls period e.now calls).length then
    if 0 < sleepSecondsOf period e.now (pruneCalls period e.now calls) then
      pruneCalls period e.wake (pruneCalls period e.now calls) ++ [e.tRec]
    else
      pruneCalls period e.now calls ++ [e.tRec]
  else
    pruneCalls period e.now calls ++ [e.tRec]

/-- A sequence of `acquire()` calls is admissible when, whenever a call hits a
full window and sleeps, time after the sleep has advanced by at least the
requested `sleep_seconds` (the guarantee of `asyncio.sleep`). -/
def eventsOK (maxCalls : ℕ) (period : ℚ) : List ℚ → List AcquireEvent → Bool
  | _, [] => true
  | calls, e :: es =>
    (decide ((pruneCalls period e.now calls).length < maxCalls) ||
      decide (e.now + sleepSecondsOf period e.now (pruneCalls period e.now calls) ≤ e.wake)) &&
    eventsOK maxCalls period (acquireStep maxCalls period calls e) es

/-- Fold a sequence of `acquire()` calls over the recorded-timestamp list. -/
def runAcquire (maxCalls : ℕ) (period : ℚ) : List ℚ → List AcquireEvent → List ℚ
  | calls, [] => calls
  | calls, e :: es => runAcquire maxCalls period (acquireStep maxCalls period calls e) es

/-! ## OI cache and `compute_delta_oi` (futu_service.py lines 91-152) -/

/-- `past_date in symbol_cache` / `symbol_cache[past_date]` on one symbol's
slice of the JSON cache, an insertion-ordered association list. -/
def lookupDate (cache : List (ℤ × ℤ)) (d : ℤ) : Option ℤ :=
  match cache with
  | [] => none
  | p :: rest => if p.1 = d then some p.2 else lookupDate rest d

/-- `cache[symbol][today] = current_oi`: Python dict assignment replaces in
place when the key exists and otherwise appends at the end. -/
def setDate (cache : List (ℤ × ℤ)) (d v : ℤ) : List (ℤ × ℤ) :=
  if cache.any (fun p => p.1 = d) then
    cache.map (fun p => if p.1 = d then (d, v) else p)
  else cache ++ [(d, v)]

/-- The lookback loop `for days_ago in range(1, 8)` (lines 130-134): the
first cached value among dates `today-1, …, today-7`, nearest first. -/
def prevOI (cache : List (ℤ × ℤ)) (today : ℤ) : Option ℤ :=
  (List.range' 1 7).findSome? (fun k => lookupDate cache (today - (k : ℤ)))

/-- `compute_delta_oi` restricted to one symbol (lines 113-152): returns the
`(current_oi, delta_oi)` pair and the symbol's cache slice after the write
and the prune `{date: oi for ... if date >= cutoff}` with
`cutoff = today - 7 days`. A `None` current OI returns `(None, None)`
before the cache is even loaded. -/
def compute_delta_oi (cache : List (ℤ × ℤ)) (today : ℤ) (currentOI : Option ℤ) :
    (Option ℤ × Option ℤ) × List (ℤ × ℤ) :=
  match currentOI with
  | none => ((none, none), cache)
  | some cur =>
    let delta : Option ℤ :=
      match prevOI cache today with
      | some y => some (cur - y)
      | none => none
    ((some cur, delta), (setDate cache today cur).filter (fun p => today - 7 ≤ p.1))

/-- Run `compute_delta_oi` once per day over a list of days, with `v d` the
(non-null) observed total OI on day `d`, threading the persisted cache. -/
def runOIDays (v : ℤ → ℤ) : List ℤ → List (ℤ × ℤ) → List (ℤ × ℤ)
  | [], cache => cache
  | d :: ds, cache => runOIDays v ds (compute_delta_oi cache d (some (v d))).2

/-! ## C3: the rate-limiter window invariant -/

/-- One `acquire()` call keeps the recorded-timestamp list at no more than
`maxCalls` entries, provided it held before the call and the sleep (if any)
really suspended for the requested duration. -/
theorem acquireStep_length_le (maxCalls : ℕ) (period : ℚ) (calls : List ℚ) (e : AcquireEvent)
    (hmax : 1 ≤ maxCalls) (hlen : calls.length ≤ maxCalls)
    (hwake : maxCalls ≤ (pruneCalls period e.now calls).length →
      e.now + sleepSecondsOf period e.now (pruneCalls period e.now calls) ≤ e.wake) :
    (acquireStep maxCalls period calls e).length ≤ maxCalls := by
  have hple : (pruneCalls period e.now calls).length ≤ calls.length :=
    List.length_filter_le _ _
  rw [acquireStep]
  by_cases hfull : maxCalls ≤ (pruneCalls period e.now calls).length
  · rw [if_pos hfull]
    have hw := hwake hfull
    have hpos : 1 ≤ (pruneCalls period e.now calls).length := le_trans hmax hfull
    obtain ⟨h, t, hht⟩ : ∃ h t, pruneCalls period e.now calls = h :: t := by
      cases hp : pruneCalls period e.now calls with
      | nil => rw [hp] at hpos; simp at hpos
      | cons a l => exact ⟨a, l, rfl⟩
    have hmem : h ∈ pruneCalls period e.now calls := by
      rw [hht]; exact List.mem_cons_self _ _
    have hyoung : e.now - h < period := by
      have hf := List.of_mem_filter hmem
      simpa using hf
    have hheadD : (pruneCalls period e.now calls).headD 0 = h := by rw [hht]; rfl
    have hs : 0 < sleepSecondsOf period e.now (pruneCalls period e.now calls) := by
      rw [sleepSecondsOf, hheadD]
      linarith
    rw [if_pos hs]
    rw [sleepSecondsOf, hheadD] at hw
    have hold : ¬ (e.wake - h < period) := by
      intro hc
      linarith
    have h2 : pruneCalls period e.wake (pruneCalls period e.now calls)
        = pruneCalls period e.wake t := by
      rw [hht, pruneCalls, pruneCalls, List.filter_cons_of_neg]
      simpa using hold
    have h3 : (pruneCalls period e.wake t).length ≤ t.length := List.length_filter_le _ _
    have h4 : t.length + 1 = (pruneCalls period e.now calls).length := by rw [hht]; rfl
    rw [h2]
    simp only [List.length_append, List.length_cons, List.length_nil]
    omega
  · rw [if_neg hfull]
    simp only [List.length_append, List.length_cons, List.length_nil]
    omega

/-- After every admissible sequence of `acquire()` calls the recorded list
stays within `maxCalls`. -/
theorem runAcquire_length_le (maxCalls : ℕ) (period : ℚ) (events : List AcquireEvent) :
    ∀ calls : List ℚ, 1 ≤ maxCalls → calls.length ≤ maxCalls →
      eventsOK maxCalls period calls events = true →
      (runAcquire maxCalls period calls events).length ≤ maxCalls := by
  induction events with
  | nil =>
    intro calls _ hlen _
    simpa [runAcquire] using hlen
  | cons e es ih =>
    intro calls hmax hlen hok
    rw [eventsOK, Bool.and_eq_true] at hok
    obtain ⟨hcond, hrest⟩ := hok
    have hwake : maxCalls ≤ (pruneCalls period e.now calls).length →
        e.now + sleepSecondsOf period e.now (pruneCalls period e.now calls) ≤ e.wake := by
      intro hfull
      rw [Bool.or_eq_true] at hcond
      rcases hcond with h | h
      · have := of_decide_eq_true h
        omega
      · exact of_decide_eq_true h
    rw [runAcquire]
    exact ih _ hmax (acquireStep_length_le maxCalls period calls e hmax hlen hwake) hrest

/-- C3: for every `RateLimiter(maxCalls, periodSeconds)` with `maxCalls ≥ 1`
and every admissible sequence of `acquire()` calls starting from the empty
record, after each `acquire()` completes the recorded-timestamp list has at
most `maxCalls` entries — hence the number of timestamps younger than
`periodSeconds` (at any clock reading `t`) is at most `maxCalls` — and every
`acquire()` ends by recording its call (`self.calls.append(...)`), never by
dropping it.  (Admissibility of every prefix gives the bound "after each"
call, since `runAcquire` on a prefix is itself such a run.) -/
theorem c3_rate_limiter_invariant (maxCalls : ℕ) (period : ℚ) (events : List AcquireEvent)
    (hmax : 1 ≤ maxCalls) (hok : eventsOK maxCalls period [] events = true) :
    (runAcquire maxCalls period [] events).length ≤ maxCalls ∧
    (∀ t : ℚ, ((runAcquire maxCalls period [] events).filter
        (fun x => t - x < period)).length ≤ maxCalls) ∧
    (∀ (calls : List ℚ) (e : AcquireEvent),
      e.tRec ∈ acquireStep maxCalls period calls e) := by
  refine ⟨runAcquire_length_le maxCalls period events [] hmax (by simp) hok, ?_, ?_⟩
  · intro t
    exact le_trans (List.length_filter_le _ _)
      (runAcquire_length_le maxCalls period events [] hmax (by simp) hok)
  · intro calls e
    rw [acquireStep]
    by_cases h1 : maxCalls ≤ (pruneCalls period e.now calls).length
    · rw [if_pos h1]
      by_cases h2 : 0 < sleepSecondsOf period e.now (pruneCalls period e.now calls)
      · rw [if_pos h2]; simp
      · rw [if_neg h2]; simp
    · rw [if_neg h1]; simp

/-- C3 witness: a concrete admissible 3-call run on `RateLimiter(2, 30)`
(the third call finds the window full, sleeps past the oldest stamp, and
still ends within the bound). -/
theorem c3_rate_limiter_invariant_witness :
    (runAcquire 2 30 [] [⟨0, 0, 0⟩, ⟨1, 1, 1⟩, ⟨2, 151 / 5, 151 / 5⟩]).length ≤ 2 :=
  (c3_rate_limiter_invariant 2 30 [⟨0, 0, 0⟩, ⟨1, 1, 1⟩, ⟨2, 151 / 5, 151 / 5⟩]
    (by norm_num)
    (by norm_num [eventsOK, acquireStep, pruneCalls, sleepSecondsOf, List.filter])).1

/-- C10: calling `compute_delta_oi` with a null current OI returns
`(None, None)` immediately and leaves the persisted cache unchanged: no
entry is written and no pruning occurs (lines 120-121 return before the
cache file is touched). -/
theorem c10_null_oi_noop (cache : List (ℤ × ℤ)) (today : ℤ) :
    compute_delta_oi cache today none = ((none, none), cache) := rfl

/-! ## C6: the ΔOI lookback -/

/-- C6: `compute_delta_oi` with a non-null current OI searches the previous
7 calendar days nearest-first: if no record exists there the returned delta
is null; if day `today - k` holds `y` and every nearer previous day holds
nothing, the returned delta is `cur - y`. -/
theorem c6_delta_oi_lookup (cache : List (ℤ × ℤ)) (today cur : ℤ) :
    ((∀ k : ℤ, 1 ≤ k → k ≤ 7 → lookupDate cache (today - k) = none) →
      (compute_delta_oi cache today (some cur)).1.2 = none) ∧
    (∀ k y : ℤ, 1 ≤ k → k ≤ 7 → lookupDate cache (today - k) = some y →
      (∀ j : ℤ, 1 ≤ j → j < k → lookupDate cache (today - j) = none) →
      (compute_delta_oi cache today (some cur)).1.2 = some (cur - y)) := by
  have hrange : List.range' 1 7 = [1, 2, 3, 4, 5, 6, 7] := rfl
  constructor
  · intro h
    have hprev : prevOI cache today = none := by
      simp only [prevOI, hrange, List.findSome?]
      norm_num [h 1 (by norm_num) (by norm_num), h 2 (by norm_num) (by norm_num),
        h 3 (by norm_num) (by norm_num), h 4 (by norm_num) (by norm_num),
        h 5 (by norm_num) (by norm_num), h 6 (by norm_num) (by norm_num),
        h 7 (by norm_num) (by norm_num)]
    simp [compute_delta_oi, hprev]
  · intro k y hk1 hk7 hky hj
    have hprev : prevOI cache today = some y := by
      simp only [prevOI, hrange, List.findSome?]
      interval_cases k
      · norm_num [hky]
      · norm_num [hj 1 (by norm_num) (by norm_num), hky]
      · norm_num [hj 1 (by norm_num) (by norm_num), hj 2 (by norm_num) (by norm_num), hky]
      · norm_num [hj 1 (by norm_num) (by norm_num), hj 2 (by norm_num) (by norm_num),
          hj 3 (by norm_num) (by norm_num), hky]
      · norm_num [hj 1 (by norm_num) (by norm_num), hj 2 (by norm_num) (by norm_num),
          hj 3 (by norm_num) (by norm_num), hj 4 (by norm_num) (by norm_num), hky]
      · norm_num [hj 1 (by norm_num) (by norm_num), hj 2 (by norm_num) (by norm_num),
          hj 3 (by norm_num) (by norm_num), hj 4 (by norm_num) (by norm_num),
          hj 5 (by norm_num) (by norm_num), hky]
      · norm_num [hj 1 (by norm_num) (by norm_num), hj 2 (by norm_num) (by norm_num),
          hj 3 (by norm_num) (by norm_num), hj 4 (by norm_num) (by norm_num),
          hj 5 (by norm_num) (by norm_num), hj 6 (by norm_num) (by norm_num), hky]
    simp [compute_delta_oi, hprev]

/-- C6 witness: the spec scenario — 1000 recorded on day 1, 1200 observed on
day 2, delta `+200`. -/
theorem c6_delta_oi_lookup_witness :
    (compute_delta_oi [(1, 1000)] 2 (some 1200)).1.2 = some 200 := by
  have h := (c6_delta_oi_lookup [(1, 1000)] 2 1200).2 1 1000 (by norm_num) (by norm_num)
    (by decide) (fun j hj1 hj2 => absurd (lt_of_le_of_lt hj1 hj2) (lt_irrefl 1))
  simpa using h

/-! ## C1: cache retention after consecutive daily writes -/

/-- C1 counterexample: writing OI on the 10 consecutive days 0..9 starting
from an empty cache leaves the dates 2..9 in the cache — 8 dates, not the 7
the claim asserts (the prune keeps `date >= today - 7`, i.e. today and the
7 previous days). -/
theorem c1_cache_retention_counterexample :
    (runOIDays (fun _ => 100) [0, 1, 2, 3, 4, 5, 6, 7, 8, 9] []).map Prod.fst
        = [2, 3, 4, 5, 6, 7, 8, 9] ∧
    ¬ ((runOIDays (fun _ => 100) [0, 1, 2, 3, 4, 5, 6, 7, 8, 9] []).map Prod.fst).length = 7 := by
  constructor
  · rfl
  · decide

/-- Date translation of one symbol's cache slice. -/
def shiftCache (s : ℤ) (cache : List (ℤ × ℤ)) : List (ℤ × ℤ) :=
  cache.map (fun p => (p.1 + s, p.2))

theorem lookupDate_shift (s : ℤ) (cache : List (ℤ × ℤ)) (d : ℤ) :
    lookupDate (shiftCache s cache) (d + s) = lookupDate cache d := by
  induction cache with
  | nil => rfl
  | cons p rest ih =>
    simp only [shiftCache, List.map_cons, lookupDate] at *
    by_cases h : p.1 = d
    · rw [if_pos (by omega : p.1 + s = d + s), if_pos h]
    · rw [if_neg (by omega : ¬ (p.1 + s = d + s)), if_neg h, ih]

theorem prevOI_shift (s : ℤ) (cache : List (ℤ × ℤ)) (today : ℤ) :
    prevOI (shiftCache s cache) (today + s) = prevOI cache today := by
  unfold prevOI
  congr 1
  funext k
  rw [show today + s - (k : ℤ) = (today - (k : ℤ)) + s by ring, lookupDate_shift]

theorem setDate_shift (s : ℤ) (cache : List (ℤ × ℤ)) (d v : ℤ) :
    setDate (shiftCache s cache) (d + s) v = shiftCache s (setDate cache d v) := by
  have hany : ((shiftCache s cache).any (fun p => p.1 = d + s))
      = (cache.any (fun p => p.1 = d)) := by
    induction cache with
    | nil => rfl
    | cons p rest ih =>
      simp only [shiftCache, List.map_cons, List.any_cons] at *
      rw [ih]
      congr 1
      rw [decide_eq_decide]
      omega
  rw [setDate, setDate, hany]
  by_cases hmem : cache.any (fun p => p.1 = d) = true
  · rw [if_pos hmem, if_pos hmem]
    simp only [shiftCache, List.map_map]
    apply List.map_congr_left
    intro p _
    by_cases h : p.1 = d
    · simp only [Function.comp_apply, if_pos (by omega : p.1 + s = d + s), if_pos h]
    · simp only [Function.comp_apply, if_neg (by omega : ¬ (p.1 + s = d + s)), if_neg h]
  · rw [if_neg hmem, if_neg hmem]
    simp [shiftCache]

theorem filter_cutoff_shift (s c : ℤ) (l : List (ℤ × ℤ)) :
    (shiftCache s l).filter (fun p => c + s ≤ p.1)
      = shiftCache s (l.filter (fun p => c ≤ p.1)) := by
  induction l with
  | nil => rfl
  | cons p rest ih =>
    simp only [shiftCache, List.map_cons, List.filter_cons] at *
    by_cases h : c ≤ p.1
    · rw [if_pos (by simpa using (by omega : c + s ≤ p.1 + s)), if_pos (by simpa using h)]
      simp only [List.map_cons]
      rw [ih]
    · rw [if_neg (by simpa using (by omega : ¬ (c + s ≤ p.1 + s))), if_neg (by simpa using h)]
      exact ih

theorem compute_delta_oi_shift (s : ℤ) (cache : List (ℤ × ℤ)) (today : ℤ) (oi : Option ℤ) :
    (compute_delta_oi (shiftCache s cache) (today + s) oi).2
      = shiftCache s (compute_delta_oi cache today oi).2 := by
  cases oi with
  | none => rfl
  | some cur =>
    simp only [compute_delta_oi]
    rw [show today + s - 7 = (today - 7) + s by ring, setDate_shift, filter_cutoff_shift]

theorem runOIDays_shift (s : ℤ) (v : ℤ → ℤ) (days : List ℤ) :
    ∀ cache : List (ℤ × ℤ),
      runOIDays v (days.map (fun d => d + s)) (shiftCache s cache)
        = shiftCache s (runOIDays (fun d => v (d + s)) days cache) := by
  induction days with
  | nil => intro cache; rfl
  | cons d ds ih =>
    intro cache
    simp only [List.map_cons, runOIDays]
    rw [compute_delta_oi_shift, ih]

set_option maxHeartbeats 1600000 in
/-- The 10-day run on days 0..9 from the empty cache, with arbitrary daily
totals, keeps exactly the dates 2..9 (all control flow is independent of the
stored values). -/
theorem runOIDays_base (w : ℤ → ℤ) :
    (runOIDays w [0, 1, 2, 3, 4, 5, 6, 7, 8, 9] []).map Prod.fst
      = [2, 3, 4, 5, 6, 7, 8, 9] := by
  have h0 : (compute_delta_oi [] 0 (some (w 0))).2 = [(0, w 0)] := by
    norm_num [compute_delta_oi, setDate, prevOI, lookupDate, List.filter, List.findSome?,
      List.range']
  have h1 : (compute_delta_oi [(0, w 0)] 1 (some (w 1))).2 = [(0, w 0), (1, w 1)] := by
    norm_num [compute_delta_oi, setDate, prevOI, lookupDate, List.filter, List.findSome?,
      List.range']
  have h2 : (compute_delta_oi [(0, w 0), (1, w 1)] 2 (some (w 2))).2
      = [(0, w 0), (1, w 1), (2, w 2)] := by
    norm_num [compute_delta_oi, setDate, prevOI, lookupDate, List.filter, List.findSome?,
      List.range']
  have h3 : (compute_delta_oi [(0, w 0), (1, w 1), (2, w 2)] 3 (some (w 3))).2
      = [(0, w 0), (1, w 1), (2, w 2), (3, w 3)] := by
    norm_num [compute_delta_oi, setDate, prevOI, lookupDate, List.filter, List.findSome?,
      List.range']
  have h4 : (compute_delta_oi [(0, w 0), (1, w 1), (2, w 2), (3, w 3)] 4 (some (w 4))).2
      = [(0, w 0), (1, w 1), (2, w 2), (3, w 3), (4, w 4)] := by
    norm_num [compute_delta_oi, setDate, prevOI, lookupDate, List.filter, List.findSome?,
      List.range']
  have h5 : (compute_delta_oi [(0, w 0), (1, w 1), (2, w 2), (3, w 3), (4, w 4)] 5
        (some (w 5))).2
      = [(0, w 0), (1, w 1), (2, w 2), (3, w 3), (4, w 4), (5, w 5)] := by
    norm_num [compute_delta_oi, setDate, prevOI, lookupDate, List.filter, List.findSome?,
      List.range']
  have h6 : (compute_delta_oi [(0, w 0), (1, w 1), (2, w 2), (3, w 3), (4, w 4), (5, w 5)] 6
        (some (w 6))).2
      = [(0, w 0), (1, w 1), (2, w 2), (3, w 3), (4, w 4), (5, w 5), (6, w 6)] := by
    norm_num [compute_delta_oi, setDate, prevOI, lookupDate, List.filter, List.findSome?,
      List.range']
  have h7 : (compute_delta_oi
        [(0, w 0), (1, w 1), (2, w 2), (3, w 3), (4, w 4), (5, w 5), (6, w 6)] 7
        (some (w 7))).2
      = [(0, w 0), (1, w 1), (2, w 2), (3, w 3), (4, w 4), (5, w 5), (6, w 6), (7, w 7)] := by
    norm_num [compute_delta_oi, setDate, prevOI, lookupDate, List.filter, List.findSome?,
      List.range']
  have h8 : (compute_delta_oi
        [(0, w 0), (1, w 1), (2, w 2), (3, w 3), (4, w 4), (5, w 5), (6, w 6), (7, w 7)] 8
        (some (w 8))).2
      = [(1, w 1), (2, w 2), (3, w 3), (4, w 4), (5, w 5), (6, w 6), (7, w 7), (8, w 8)] := by
    norm_num [compute_delta_oi, setDate, prevOI, lookupDate, List.filter, List.findSome?,
      List.range']
  have h9 : (compute_delta_oi
        [(1, w 1), (2, w 2), (3, w 3), (4, w 4), (5, w 5), (6, w 6), (7, w 7), (8, w 8)] 9
        (some (w 9))).2
      = [(2, w 2), (3, w 3), (4, w 4), (5, w 5), (6, w 6), (7, w 7), (8, w 8), (9, w 9)] := by
    norm_num [compute_delta_oi, setDate, prevOI, lookupDate, List.filter, List.findSome?,
      List.range']
  rw [runOIDays, h0, runOIDays, h1, runOIDays, h2, runOIDays, h3, runOIDays, h4,
    runOIDays, h5, runOIDays, h6, runOIDays, h7, runOIDays, h8, runOIDays, h9, runOIDays]
  rfl

/-- C1 (amended): after `compute_delta_oi` is called with a non-null total
OI on 10 consecutive calendar days `s..s+9` starting from an empty cache,
the persisted cache for that symbol contains exactly the 8 most recent
dates `s+2..s+9`, one entry per date (the prune keeps every date
`>= today - 7`, which includes today itself plus the 7 previous days). -/
theorem c1_cache_retention_amended (s : ℤ) (v : ℤ → ℤ) :
    (runOIDays v [s, s + 1, s + 2, s + 3, s + 4, s + 5, s + 6, s + 7, s + 8, s + 9] []).map
        Prod.fst
      = [s + 2, s + 3, s + 4, s + 5, s + 6, s + 7, s + 8, s + 9] := by
  have hdays : [s, s + 1, s + 2, s + 3, s + 4, s + 5, s + 6, s + 7, s + 8, s + 9]
      = List.map (fun d => d + s) [0, 1, 2, 3, 4, 5, 6, 7, 8, 9] := by
    simp [add_comm]
  have h0 : shiftCache s ([] : List (ℤ × ℤ)) = [] := rfl
  rw [hdays, ← h0, runOIDays_shift]
  have hbase := runOIDays_base (fun d => v (d + s))
  simp only [shiftCache, List.map_map]
  have hcomp : (Prod.fst ∘ fun p : ℤ × ℤ => (p.1 + s, p.2)) = (fun x => x + s) ∘ Prod.fst :=
    rfl
  rw [hcomp, ← List.map_map, hbase]
  simp [add_comm]

/-! ## IV normalization and variance interpolation (futu_service.py lines 157-228) -/

/-- `_normalize_iv`: a value `<= 1.5` is treated as a fraction and scaled to
percent; larger values pass through. -/
def normalize_iv (iv : ℚ) : ℚ := if iv ≤ 3 / 2 then iv * 100 else iv

/-- `_variance_interpolation` (lines 168-191): convert the bracketing IVs to
variances, interpolate linearly by the horizon weight, and take the square
root back to percent IV. -/
noncomputable def variance_interpolation (lower upper : ℤ × ℚ) (targetDay : ℤ) : ℝ :=
  if upper.1 = lower.1 then (lower.2 : ℝ)
  else
    Real.sqrt
      (((lower.2 : ℝ) / 100) ^ 2 +
        (((upper.2 : ℝ) / 100) ^ 2 - ((lower.2 : ℝ) / 100) ^ 2) *
          (((targetDay : ℝ) - ((lower.1 : ℤ) : ℝ)) / (((upper.1 : ℤ) : ℝ) - ((lower.1 : ℤ) : ℝ)))) *
      100

/-- The epilogue of `_interpolate_iv` (lines 222-228): bracketed targets are
interpolated, one-sided targets clamp to the nearest endpoint, and with
neither the result is null. -/
noncomputable def interpFinish (lower upper : Option (ℤ × ℚ)) (targetDay : ℤ) : Option ℝ :=
  match lower, upper with
  | some l, some u => some (variance_interpolation l u targetDay)
  | some l, none => some ((l.2 : ℝ))
  | none, some u => some ((u.2 : ℝ))
  | none, none => none

/-- The scan loop of `_interpolate_iv` (lines 210-220): an exact knot returns
its IV; otherwise track the last point below the target, and stop at the
first point above it. -/
noncomputable def interpGo (targetDay : ℤ) :
    List (ℤ × ℚ) → Option (ℤ × ℚ) → Option ℝ
  | [], lower => interpFinish lower none targetDay
  | (dte, iv) :: rest, lower =>
    if dte = targetDay then some ((iv : ℝ))
    else
      let lower2 := if dte < targetDay then some (dte, iv) else lower
      if targetDay < dte then interpFinish lower2 (some (dte, iv)) targetDay
      else interpGo targetDay rest lower2

/-- `_interpolate_iv` (lines 194-228). -/
noncomputable def interpolate_iv (points : List (ℤ × ℚ)) (targetDay : ℤ) : Option ℝ :=
  match points with
  | [] => none
  | [p] => some ((p.2 : ℝ))
  | _ => interpGo targetDay points none

/-- C4: on the sorted TermPoints [(7, 20.0), (30, 25.0), (90, 22.0)] the
interpolation at horizon 60 brackets with (30, 25.0) and (90, 22.0):
variances 0.0625 and 0.0484, weight 0.5, interpolated variance
0.05545 = 1109/20000, result sqrt(0.05545)·100 ≈ 23.55 (within 0.01);
at horizon 30 the knot is hit exactly and 25.0 is returned unchanged. -/
theorem c4_term_interpolation_scenario :
    interpolate_iv [(7, 20), (30, 25), (90, 22)] 60
        = some (Real.sqrt (1109 / 20000) * 100) ∧
    |Real.sqrt (1109 / 20000) * 100 - 2355 / 100| < 1 / 100 ∧
    interpolate_iv [(7, 20), (30, 25), (90, 22)] 30 = some 25 := by
  refine ⟨?_, ?_, ?_⟩
  · have hgo : interpolate_iv [(7, 20), (30, 25), (90, 22)] 60
        = some (variance_interpolation (30, 25) (90, 22) 60) := by
      norm_num [interpolate_iv, interpGo, interpFinish]
    rw [hgo, variance_interpolation]
    norm_num
  · have hlo : (2354 / 10000 : ℝ) < Real.sqrt (1109 / 20000) := by
      rw [Real.lt_sqrt (by norm_num)]
      norm_num
    have hhi : Real.sqrt (1109 / 20000) < (2356 / 10000 : ℝ) := by
      rw [Real.sqrt_lt' (by norm_num)]
      norm_num
    rw [abs_sub_lt_iff]
    constructor
    · linarith
    · linarith
  · norm_num [interpolate_iv, interpGo]

/-! ## Contract snapshots and ATM selection (futu_service.py lines 231-275) -/

/-- The two snapshot fields `_pick_atm_iv_by_delta` reads, each already put
through `_get_snapshot_value` (so `none` covers an absent key, a null value
and a non-numeric value alike). -/
structure Snapshot where
  delta : Option ℚ
  iv : Option ℚ
  deriving DecidableEq

/-- The `OptionContract` dataclass (lines 69-75). -/
structure OptionContract where
  code : String
  option_type : String
  strike_price : ℚ
  expiry_date : String
  deriving DecidableEq

/-- One iteration of the loop of `_pick_atm_iv_by_delta` (lines 253-273) on
the state `(best_iv, best_diff)`. -/
def pickStep (snap : String → Option Snapshot) (st : Option ℚ × Option ℚ)
    (c : OptionContract) : Option ℚ × Option ℚ :=
  if c.option_type ≠ "CALL" then st
  else
    match snap c.code with
    | none => st
    | some s =>
      match s.delta, s.iv with
      | some d, some iv =>
        match st.2 with
        | none => (some (normalize_iv iv), some |d - 1 / 2|)
        | some bd =>
          if |d - 1 / 2| < bd then (some (normalize_iv iv), some |d - 1 / 2|) else st
      | _, _ => st

/-- `_pick_atm_iv_by_delta` (lines 242-275). -/
def pick_atm_iv_by_delta (contracts : List OptionContract)
    (snap : String → Option Snapshot) : Option ℚ :=
  (contracts.foldl (pickStep snap) (none, none)).1

/-- The candidate a contract contributes to the delta-based ATM scan: a CALL
with a present snapshot carrying both a delta and an IV yields its distance
`|delta - 0.5|` paired with its normalized IV; anything else is skipped. -/
def atmCandidate (snap : String → Option Snapshot) (c : OptionContract) : Option (ℚ × ℚ) :=
  if c.option_type ≠ "CALL" then none
  else
    match snap c.code with
    | none => none
    | some s =>
      match s.delta, s.iv with
      | some d, some iv => some (|d - 1 / 2|, normalize_iv iv)
      | _, _ => none

/-- Strict-improvement minimum step: keep the incumbent on ties, exactly the
`diff < best_diff` update rule of the source. -/
def minStep (acc : Option (ℚ × ℚ)) (x : ℚ × ℚ) : Option (ℚ × ℚ) :=
  match acc with
  | none => some x
  | some y => if x.1 < y.1 then some x else some y

/-- The loop state `(best_iv, best_diff)` as a function of the abstract
accumulator `(best_diff, best_iv)`. -/
def encodeState : Option (ℚ × ℚ) → Option ℚ × Option ℚ
  | none => (none, none)
  | some x => (some x.2, some x.1)

theorem pickStep_encode (snap : String → Option Snapshot) (acc : Option (ℚ × ℚ))
    (c : OptionContract) :
    pickStep snap (encodeState acc) c
      = encodeState (Option.elim (atmCandidate snap c) acc (minStep acc)) := by
  rw [pickStep, atmCandidate]
  by_cases hc : c.option_type ≠ "CALL"
  · rw [if_pos hc, if_pos hc]
    rfl
  · rw [if_neg hc, if_neg hc]
    cases hs : snap c.code with
    | none => rfl
    | some s =>
      cases hd : s.delta with
      | none => cases hiv : s.iv <;> simp [hd, hiv, encodeState]
      | some d =>
        cases hiv : s.iv with
        | none => simp [hd, hiv, encodeState]
        | some iv =>
          cases acc with
          | none => simp [hd, hiv, encodeState, minStep]
          | some y =>
            simp only [hd, hiv, encodeState, Option.elim, minStep]
            by_cases hlt : |d - 1 / 2| < y.1
            · rw [if_pos hlt, if_pos hlt]
            · rw [if_neg hlt, if_neg hlt]

theorem foldl_pickStep_encode (snap : String → Option Snapshot) :
    ∀ (l : List OptionContract) (acc : Option (ℚ × ℚ)),
      l.foldl (pickStep snap) (encodeState acc)
        = encodeState ((l.filterMap (atmCandidate snap)).foldl minStep acc) := by
  intro l
  induction l with
  | nil => intro acc; rfl
  | cons c rest ih =>
    intro acc
    rw [List.foldl_cons, pickStep_encode]
    cases hcand : atmCandidate snap c with
    | none =>
      rw [List.filterMap_cons_none hcand]
      exact ih acc
    | some x =>
      rw [List.filterMap_cons_some hcand, List.foldl_cons]
      exact ih (minStep acc x)

theorem pick_eq_argmin (contracts : List OptionContract) (snap : String → Option Snapshot) :
    pick_atm_iv_by_delta contracts snap
      = ((contracts.filterMap (atmCandidate snap)).foldl minStep none).map Prod.snd := by
  rw [pick_atm_iv_by_delta]
  have h := foldl_pickStep_encode snap contracts none
  rw [show (encodeState none) = ((none, none) : Option ℚ × Option ℚ) from rfl] at h
  rw [h]
  cases (contracts.filterMap (atmCandidate snap)).foldl minStep none with
  | none => rfl
  | some z => rfl

/-- The strict-improvement fold computes the earliest minimum: the list of
candidates splits around the result, everything before it strictly larger,
everything after it no smaller. -/
theorem foldl_minStep_spec :
    ∀ (l : List (ℚ × ℚ)) (y : ℚ × ℚ),
      ∃ l1 z l2, y :: l = l1 ++ z :: l2 ∧ l.foldl minStep (some y) = some z ∧
        (∀ x ∈ l1, z.1 < x.1) ∧ (∀ x ∈ l2, z.1 ≤ x.1) := by
  intro l
  induction l with
  | nil =>
    intro y
    exact ⟨[], y, [], rfl, rfl, by simp, by simp⟩
  | cons x xs ih =>
    intro y
    rw [List.foldl_cons]
    by_cases hlt : x.1 < y.1
    · rw [show minStep (some y) x = some x by rw [minStep]; rw [if_pos hlt]]
      obtain ⟨l1, z, l2, heq, hfold, h1, h2⟩ := ih x
      have hzx : z.1 ≤ x.1 := by
        cases l1 with
        | nil =>
          simp only [List.nil_append, List.cons.injEq] at heq
          rw [heq.1]
        | cons b l1t =>
          simp only [List.cons_append, List.cons.injEq] at heq
          exact le_of_lt (heq.1 ▸ h1 b (List.mem_cons_self _ _))
      refine ⟨y :: l1, z, l2, ?_, hfold, ?_, h2⟩
      · rw [List.cons_append, ← heq]
      · intro a ha
        rcases List.mem_cons.mp ha with rfl | ha2
        · exact lt_of_le_of_lt hzx hlt
        · exact h1 a ha2
    · rw [show minStep (some y) x = some y by rw [minStep]; rw [if_neg hlt]]
      obtain ⟨l1, z, l2, heq, hfold, h1, h2⟩ := ih y
      cases l1 with
      | nil =>
        simp only [List.nil_append, List.cons.injEq] at heq
        obtain ⟨hzy, hl2⟩ := heq
        refine ⟨[], z, x :: l2, ?_, hfold, by simp, ?_⟩
        · rw [List.nil_append, hzy, hl2]
        · intro a ha
          rcases List.mem_cons.mp ha with rfl | ha2
          · rw [← hzy]; exact le_of_not_lt hlt
          · exact h2 a ha2
      | cons b l1t =>
        simp only [List.cons_append, List.cons.injEq] at heq
        obtain ⟨hyb, hxs⟩ := heq
        have hzy : z.1 < y.1 := hyb ▸ h1 b (List.mem_cons_self _ _)
        refine ⟨y :: x :: l1t, z, l2, ?_, hfold, ?_, h2⟩
        · rw [List.cons_append, List.cons_append, hxs]
        · intro a ha
          rcases List.mem_cons.mp ha with rfl | ha2
          · exact hzy
          · rcases List.mem_cons.mp ha2 with rfl | ha3
            · exact lt_of_lt_of_le hzy (le_of_not_lt hlt)
            · exact h1 a (hyb ▸ List.mem_cons_of_mem b ha3)

/-- C9: `_pick_atm_iv_by_delta` returns `None` exactly when no CALL contract
has a snapshot with both a delta and an IV present; otherwise it returns the
normalized IV of the candidate whose `|delta - 0.5|` is minimal, preferring
the earliest contract on ties: the candidate list (in contract order) splits
as `l1 ++ c :: l2` with every earlier candidate strictly farther from 0.5
and every later one no closer. -/
theorem c9_atm_delta_selection (contracts : List OptionContract)
    (snap : String → Option Snapshot) :
    (pick_atm_iv_by_delta contracts snap = none
        ↔ contracts.filterMap (atmCandidate snap) = []) ∧
    (∀ r : ℚ, pick_atm_iv_by_delta contracts snap = some r →
      ∃ l1 c l2, contracts.filterMap (atmCandidate snap) = l1 ++ c :: l2 ∧
        r = c.2 ∧ (∀ x ∈ l1, c.1 < x.1) ∧ (∀ x ∈ l2, c.1 ≤ x.1)) := by
  have hpick := pick_eq_argmin contracts snap
  constructor
  · rw [hpick]
    cases hc : contracts.filterMap (atmCandidate snap) with
    | nil => simp
    | cons y ys =>
      obtain ⟨l1, z, l2, _, hfold, _, _⟩ := foldl_minStep_spec ys y
      rw [show (y :: ys).foldl minStep none = ys.foldl minStep (some y) from rfl, hfold]
      simp
  · intro r hr
    rw [hpick] at hr
    cases hc : contracts.filterMap (atmCandidate snap) with
    | nil => rw [hc] at hr; simp at hr
    | cons y ys =>
      rw [hc] at hr
      obtain ⟨l1, z, l2, heq, hfold, h1, h2⟩ := foldl_minStep_spec ys y
      rw [show (y :: ys).foldl minStep none = ys.foldl minStep (some y) from rfl,
        hfold] at hr
      simp only [Option.map_some', Option.some.injEq] at hr
      exact ⟨l1, z, l2, heq, hr.symm, h1, h2⟩

/-- Concrete snapshot map for the C9 witness: one CALL contract whose
snapshot has delta 0.4 and fractional IV 0.3. -/
def snapC9 : String → Option Snapshot := fun code =>
  if code = "X" then some ⟨some (2 / 5), some (3 / 10)⟩ else none

/-- Concrete contract list for the C9 witness. -/
def contractsC9 : List OptionContract := [⟨"X", "CALL", 100, "2025-01-17"⟩]

/-- C9 witness: on the one-candidate list the selection returns the
candidate's normalized IV 30 and the characterization instantiates. -/
theorem c9_atm_delta_selection_witness :
    ∃ l1 c l2, contractsC9.filterMap (atmCandidate snapC9) = l1 ++ c :: l2 ∧
      (30 : ℚ) = c.2 ∧ (∀ x ∈ l1, c.1 < x.1) ∧ (∀ x ∈ l2, c.1 ≤ x.1) :=
  (c9_atm_delta_selection contractsC9 snapC9).2 30 (by
    norm_num [pick_atm_iv_by_delta, pickStep, contractsC9, snapC9, normalize_iv])

/-! ## The strike-distance ATM fallback of get_option_iv_data (lines 664-685) -/

/-- The fallback loop (lines 668-681): scan contracts in order; skip
non-CALLs and contracts without a snapshot; on the first contract whose
strike is within 5% relative distance of the reference price and whose
snapshot IV is truthy (present and nonzero), return its normalized IV. -/
def atmFallbackIV (snap : String → Option Snapshot) (underlying : ℚ) :
    List OptionContract → Option ℚ
  | [] => none
  | c :: rest =>
    if c.option_type ≠ "CALL" then atmFallbackIV snap underlying rest
    else
      match snap c.code with
      | none => atmFallbackIV snap underlying rest
      | some s =>
        if |c.strike_price - underlying| / underlying < 1 / 20 then
          match s.iv with
          | some iv =>
            if iv = 0 then atmFallbackIV snap underlying rest else some (normalize_iv iv)
          | none => atmFallbackIV snap underlying rest
        else atmFallbackIV snap underlying rest

/-- What one contract contributes to the fallback scan: its normalized IV if
it is a CALL with a snapshot, a strike within 5% of the reference price, and
a truthy IV; nothing otherwise. -/
def fallbackValue (snap : String → Option Snapshot) (underlying : ℚ)
    (c : OptionContract) : Option ℚ :=
  if c.option_type ≠ "CALL" then none
  else
    match snap c.code with
    | none => none
    | some s =>
      if |c.strike_price - underlying| / underlying < 1 / 20 then
        match s.iv with
        | some iv => if iv = 0 then none else some (normalize_iv iv)
        | none => none
      else none

/-- The per-expiry IV choice of `get_option_iv_data` (lines 664-685): the
delta-based pick, then — only when that failed and a truthy reference price
was supplied — the strike-distance fallback.  The expiry contributes a
TermPoint exactly when the result is non-null (line 683). -/
def chooseExpiryIV (contracts : List OptionContract) (snap : String → Option Snapshot)
    (underlying : Option ℚ) : Option ℚ :=
  match pick_atm_iv_by_delta contracts snap with
  | some iv => some iv
  | none =>
    match underlying with
    | some u => if u = 0 then none else atmFallbackIV snap u contracts
    | none => none

theorem atmFallbackIV_eq_findSome (snap : String → Option Snapshot) (u : ℚ) :
    ∀ l : List OptionContract, atmFallbackIV snap u l = l.findSome? (fallbackValue snap u) := by
  intro l
  induction l with
  | nil => rfl
  | cons c rest ih =>
    rw [atmFallbackIV, List.findSome?_cons, fallbackValue]
    by_cases hc : c.option_type ≠ "CALL"
    · rw [if_pos hc, if_pos hc, ih]
    · rw [if_neg hc, if_neg hc]
      cases hs : snap c.code with
      | none => exact ih
      | some s =>
        dsimp only
        by_cases hd : |c.strike_price - u| / u < 1 / 20
        · rw [if_pos hd, if_pos hd]
          cases hiv : s.iv with
          | none => exact ih
          | some iv =>
            dsimp only
            by_cases hz : iv = 0
            · rw [if_pos hz, if_pos hz, ih]
            · rw [if_neg hz, if_neg hz]
        · rw [if_neg hd, if_neg hd]
          exact ih

/-- Concrete snapshot map for the C2 counterexample: two CALL contracts,
neither snapshot has a delta; strikes 104 and 100 with a reference price of
100 — the code returns the IV of the first within-5% contract (strike 104),
not that of the nearest-strike contract (strike 100). -/
def snapC2 : String → Option Snapshot := fun code =>
  if code = "A" then some ⟨none, some (3 / 10)⟩
  else if code = "B" then some ⟨none, some (2 / 5)⟩
  else none

/-- Concrete contract list for the C2 counterexample. -/
def contractsC2 : List OptionContract :=
  [⟨"A", "CALL", 104, "2025-01-17"⟩, ⟨"B", "CALL", 100, "2025-01-17"⟩]

/-- C2 counterexample: with no deltas and reference price 100, the expiry's
IV comes out as 30 (the first CALL within 5%: strike 104, IV 0.3), not 40
(the CALL whose strike 100 is nearest the reference price, IV 0.4) as the
claim requires. -/
theorem c2_atm_fallback_counterexample :
    chooseExpiryIV contractsC2 snapC2 (some 100) = some 30 ∧
    chooseExpiryIV contractsC2 snapC2 (some 100) ≠ some 40 := by
  have h : chooseExpiryIV contractsC2 snapC2 (some 100) = some 30 := by
    have hpick : pick_atm_iv_by_delta contractsC2 snapC2 = none := by decide
    rw [chooseExpiryIV, hpick]
    simp only [contractsC2, snapC2, atmFallbackIV]
    norm_num [normalize_iv]
  exact ⟨h, by rw [h]; intro hcon; exact absurd (Option.some.inj hcon) (by norm_num)⟩

/-- C2 (amended): in `get_option_iv_data`, for an expiry whose contracts
have no usable delta, a supplied nonzero reference price selects the first
CALL contract in chain order whose snapshot is present, whose strike is
within 5% relative distance of the reference price, and whose snapshot IV
is present and nonzero — that contract's normalized IV becomes the expiry's
TermPoint (null, hence no TermPoint, when no contract qualifies); with no
reference price and no deltas the expiry contributes no TermPoint. -/
theorem c2_atm_fallback_amended (contracts : List OptionContract)
    (snap : String → Option Snapshot) :
    (∀ u : ℚ, u ≠ 0 → pick_atm_iv_by_delta contracts snap = none →
      chooseExpiryIV contracts snap (some u)
        = contracts.findSome? (fallbackValue snap u)) ∧
    (pick_atm_iv_by_delta contracts snap = none →
      chooseExpiryIV contracts snap none = none) := by
  constructor
  · intro u hu hnone
    rw [chooseExpiryIV, hnone, if_neg hu, atmFallbackIV_eq_findSome]
  · intro hnone
    rw [chooseExpiryIV, hnone]

/-- C2 witness: the amended description evaluated on the counterexample
data — the orchestrated choice equals the first-qualifying scan. -/
theorem c2_atm_fallback_amended_witness :
    chooseExpiryIV contractsC2 snapC2 (some 100)
      = contractsC2.findSome? (fallbackValue snapC2 100) :=
  (c2_atm_fallback_amended contractsC2 snapC2).1 100 (by norm_num) (by decide)

/-! ## Positioning aggregation (futu_service.py lines 759-809) -/

/-- One row of the option chain as `calculate_positioning_score` reads it:
its expiry as a day number (the code parses the date string and subtracts
today), `opt.get("open_interest")` (`none` for an absent or null value, both
mapped to 0 by the `or 0`), and whether `"CALL" in str(option_type).upper()`. -/
structure ChainOption where
  expiry : ℤ
  open_interest : Option ℤ
  isCall : Bool
  deriving DecidableEq

/-- The six bucket sums and the running total of lines 761-767. -/
structure PositioningAcc where
  call0_7 : ℤ
  put0_7 : ℤ
  call8_30 : ℤ
  put8_30 : ℤ
  call31_90 : ℤ
  put31_90 : ℤ
  total_oi : ℤ
  deriving DecidableEq

/-- The all-zero accumulator the loop starts from. -/
def posZero : PositioningAcc := ⟨0, 0, 0, 0, 0, 0, 0⟩

/-- One iteration of the aggregation loop (lines 769-791): the total is
incremented before the bucket dispatch, so it sees every contract. -/
def posStep (today : ℤ) (acc : PositioningAcc) (c : ChainOption) : PositioningAcc :=
  let dte := c.expiry - today
  let oi := c.open_interest.getD 0
  let acc1 := { acc with total_oi := acc.total_oi + oi }
  if 0 ≤ dte ∧ dte ≤ 7 then
    if c.isCall then { acc1 with call0_7 := acc1.call0_7 + oi }
    else { acc1 with put0_7 := acc1.put0_7 + oi }
  else if 8 ≤ dte ∧ dte ≤ 30 then
    if c.isCall then { acc1 with call8_30 := acc1.call8_30 + oi }
    else { acc1 with put8_30 := acc1.put8_30 + oi }
  else if 31 ≤ dte ∧ dte ≤ 90 then
    if c.isCall then { acc1 with call31_90 := acc1.call31_90 + oi }
    else { acc1 with put31_90 := acc1.put31_90 + oi }
  else acc1

/-- `calculate_positioning_score` without the I/O wrapper (lines 759-809):
aggregate the chain, then feed the total through `compute_delta_oi`;
returns the bucket sums, the day-over-day delta, and the updated cache. -/
def calculate_positioning (cache : List (ℤ × ℤ)) (today : ℤ) (opts : List ChainOption) :
    PositioningAcc × Option ℤ × List (ℤ × ℤ) :=
  let acc := opts.foldl (posStep today) posZero
  let r := compute_delta_oi cache today (some acc.total_oi)
  (acc, r.1.2, r.2)

/-- C5 counterexample: one CALL contract with `dte = 100` (outside [0, 90])
and OI 500, with yesterday's total 100 in the cache.  The claim says such a
contract affects neither `totalOpenInterest` nor the delta; in the code the
total becomes 500 (not 0) and the delta `+400` (not `-100`), because
`total_oi += oi` runs before the bucket-range dispatch.  Only the six bucket
sums ignore it. -/
theorem c5_positioning_filter_counterexample :
    (calculate_positioning [(-1, 100)] 0 [⟨100, some 500, true⟩]).1
        ≠ (calculate_positioning [(-1, 100)] 0 []).1 ∧
    (calculate_positioning [(-1, 100)] 0 [⟨100, some 500, true⟩]).1.total_oi = 500 ∧
    (calculate_positioning [(-1, 100)] 0 [⟨100, some 500, true⟩]).2.1 = some 400 ∧
    (calculate_positioning [(-1, 100)] 0 []).2.1 = some (-100) := by
  refine ⟨by decide, by decide, by decide, by decide⟩

/-- C5 (amended): a contract lacking an OI value contributes nothing at all
(its OI reads as 0); a contract with `dte` outside [0, 90] contributes to
none of the six bucket sums but its OI is still added to
`totalOpenInterest` — and therefore still moves the day-over-day delta. -/
theorem c5_positioning_filter_amended (today : ℤ) (acc : PositioningAcc) (c : ChainOption) :
    (c.open_interest = none → posStep today acc c = acc) ∧
    (¬ (0 ≤ c.expiry - today ∧ c.expiry - today ≤ 90) →
      posStep today acc c = { acc with total_oi := acc.total_oi + c.open_interest.getD 0 }) := by
  obtain ⟨a1, a2, a3, a4, a5, a6, a7⟩ := acc
  constructor
  · intro h
    simp [posStep, h]
  · intro h
    have h1 : ¬ (0 ≤ c.expiry - today ∧ c.expiry - today ≤ 7) := by omega
    have h2 : ¬ (8 ≤ c.expiry - today ∧ c.expiry - today ≤ 30) := by omega
    have h3 : ¬ (31 ≤ c.expiry - today ∧ c.expiry - today ≤ 90) := by omega
    simp only [posStep]
    rw [if_neg h1, if_neg h2, if_neg h3]

/-- C5 witness: the amended step evaluated at a concrete out-of-range
contract — only the total moves. -/
theorem c5_positioning_filter_amended_witness :
    posStep 0 posZero ⟨200, some 7, true⟩ = { posZero with total_oi := posZero.total_oi + 7 } := by
  have h := (c5_positioning_filter_amended 0 posZero ⟨200, some 7, true⟩).2 (by decide)
  simpa using h

/-! ## SourceOrchestrator (options_data_service.py lines 80-141) -/

/-- The two slots of the configured `(primary, fallback)` source pair. -/
inductive Src where
  | primary : Src
  | fallback : Src
  deriving DecidableEq

/-- A provider as `_try_with_fallback` observes it: its configured `enabled`
flag (`_is_source_enabled`), whether `getattr(service, method_name)` finds
the capability, and the outcome of awaiting it — an exception or an
optional result. -/
structure ProviderBehavior (R : Type) where
  enabled : Bool
  hasMethod : Bool
  run : Except String (Option R)

/-- The provider loop of `_try_with_fallback` (lines 106-141): skip disabled
sources and missing methods, return the first non-null result, fall through
on a null result, and on an exception continue only from the primary with
`auto_fallback` set, else break.  Returns the result (null after exhaustion)
together with the list of sources whose method was actually awaited. -/
def trySources {R : Type} (auto : Bool) (getP : Src → ProviderBehavior R) :
    List Src → Option R × List Src
  | [] => (none, [])
  | s :: rest =>
    if (getP s).enabled = false then trySources auto getP rest
    else if (getP s).hasMethod = false then trySources auto getP rest
    else
      match (getP s).run with
      | Except.ok (some r) => (some r, [s])
      | Except.ok none =>
        ((trySources auto getP rest).1, s :: (trySources auto getP rest).2)
      | Except.error _ =>
        if auto = true ∧ s = Src.primary then
          ((trySources auto getP rest).1, s :: (trySources auto getP rest).2)
        else (none, [s])

/-- `_try_with_fallback` (lines 99-104): the source order is the primary
followed, when `auto_fallback` is set, by the fallback. -/
def tryWithFallback {R : Type} (auto : Bool) (getP : Src → ProviderBehavior R) :
    Option R × List Src :=
  trySources auto getP (Src.primary :: (if auto then [Src.fallback] else []))

/-- The result a provider call surfaces: its optional value on success,
nothing on an exception. -/
def resultOf {R : Type} : Except String (Option R) → Option R
  | Except.ok o => o
  | Except.error _ => none

/-- C7: with the primary disabled, the fallback enabled and exposing the
capability, and `autoFallback = true`, the primary's method is never awaited
and, whenever the fallback's call returns (rather than raises), the
orchestrator's result is exactly the fallback's result (including a null
result passing through as null). -/
theorem c7_fallback_primary_disabled {R : Type} (getP : Src → ProviderBehavior R)
    (hpd : (getP Src.primary).enabled = false)
    (hfe : (getP Src.fallback).enabled = true)
    (hfm : (getP Src.fallback).hasMethod = true) :
    Src.primary ∉ (tryWithFallback true getP).2 ∧
    (∀ o : Option R, (getP Src.fallback).run = Except.ok o →
      (tryWithFallback true getP).1 = o) := by
  have hlist : tryWithFallback true getP = trySources true getP [Src.primary, Src.fallback] :=
    rfl
  rw [hlist]
  rw [trySources, if_pos hpd, trySources, if_neg (by rw [hfe]; simp),
    if_neg (by rw [hfm]; simp)]
  constructor
  · cases hrun : (getP Src.fallback).run with
    | ok o =>
      cases o with
      | none =>
        rw [trySources]
        intro hmem
        rcases List.mem_cons.mp hmem with hf | hnil
        · exact Src.noConfusion hf
        · exact List.not_mem_nil _ hnil
      | some r =>
        intro hmem
        rcases List.mem_cons.mp hmem with hf | hnil
        · exact Src.noConfusion hf
        · exact List.not_mem_nil _ hnil
    | error e =>
      rw [if_neg (by intro hand; exact Src.noConfusion hand.2)]
      intro hmem
      rcases List.mem_cons.mp hmem with hf | hnil
      · exact Src.noConfusion hf
      · exact List.not_mem_nil _ hnil
  · intro o ho
    rw [ho]
    cases o with
    | none => rw [trySources]
    | some r => rfl

/-- Concrete providers for the C7 witness: primary disabled, fallback
returning 42. -/
def getPC7 : Src → ProviderBehavior ℕ := fun s =>
  match s with
  | Src.primary => ⟨false, true, Except.ok (some 1)⟩
  | Src.fallback => ⟨true, true, Except.ok (some 42)⟩

/-- C7 witness: the fallback's 42 comes through and the primary is never
awaited. -/
theorem c7_fallback_primary_disabled_witness :
    Src.primary ∉ (tryWithFallback true getPC7).2 ∧ (tryWithFallback true getPC7).1 = some 42 := by
  have h := c7_fallback_primary_disabled getPC7 rfl rfl rfl
  exact ⟨h.1, h.2 (some 42) rfl⟩

/-- The provider loop never lets an exception escape and returns null only
after exhausting its sources: over any source list, if every source's call
surfaces nothing (exception or null), the loop returns null; and a non-null
result is exactly some awaited provider's successful value. -/
theorem trySources_spec {R : Type} (auto : Bool) (getP : Src → ProviderBehavior R) :
    ∀ l : List Src,
      ((∀ s : Src, resultOf (getP s).run = none) → (trySources auto getP l).1 = none) ∧
      (∀ r : R, (trySources auto getP l).1 = some r →
        ∃ s : Src, s ∈ (trySources auto getP l).2 ∧ (getP s).run = Except.ok (some r)) := by
  intro l
  induction l with
  | nil => exact ⟨fun _ => rfl, fun r hr => absurd hr (by rw [trySources]; simp)⟩
  | cons s rest ih =>
    constructor
    · intro hall
      rw [trySources]
      by_cases he : (getP s).enabled = false
      · rw [if_pos he]; exact ih.1 hall
      · rw [if_neg he]
        by_cases hm : (getP s).hasMethod = false
        · rw [if_pos hm]; exact ih.1 hall
        · rw [if_neg hm]
          cases hrun : (getP s).run with
          | ok o =>
            cases o with
            | none => exact ih.1 hall
            | some r =>
              have := hall s
              rw [hrun] at this
              exact absurd this (by rw [resultOf]; simp)
          | error e =>
            by_cases hae : auto = true ∧ s = Src.primary
            · rw [if_pos hae]; exact ih.1 hall
            · rw [if_neg hae]
    · intro r hr
      rw [trySources] at hr
      by_cases he : (getP s).enabled = false
      · rw [if_pos he] at hr
        obtain ⟨t, ht1, ht2⟩ := ih.2 r hr
        exact ⟨t, by rw [trySources, if_pos he]; exact ht1, ht2⟩
      · rw [if_neg he] at hr
        by_cases hm : (getP s).hasMethod = false
        · rw [if_pos hm] at hr
          obtain ⟨t, ht1, ht2⟩ := ih.2 r hr
          exact ⟨t, by rw [trySources, if_neg he, if_pos hm]; exact ht1, ht2⟩
        · rw [if_neg hm] at hr
          cases hrun : (getP s).run with
          | ok o =>
            cases o with
            | none =>
              rw [hrun] at hr
              obtain ⟨t, ht1, ht2⟩ := ih.2 r hr
              refine ⟨t, ?_, ht2⟩
              rw [trySources, if_neg he, if_neg hm, hrun]
              exact List.mem_cons_of_mem s ht1
            | some r2 =>
              rw [hrun] at hr
              have hr2 : r2 = r := Option.some.inj hr
              refine ⟨s, ?_, by rw [hrun, hr2]⟩
              rw [trySources, if_neg he, if_neg hm, hrun]
              exact List.mem_cons_self _ _
          | error e =>
            rw [hrun] at hr
            by_cases hae : auto = true ∧ s = Src.primary
            · rw [if_pos hae] at hr
              obtain ⟨t, ht1, ht2⟩ := ih.2 r hr
              refine ⟨t, ?_, ht2⟩
              rw [trySources, if_neg he, if_neg hm, hrun, if_pos hae]
              exact List.mem_cons_of_mem s ht1
            · rw [if_neg hae] at hr
              exact absurd hr (by simp)

/-- C8: `_try_with_fallback` surfaces no provider exception: whatever the
providers do, the call evaluates to a plain optional result; it is null
whenever every provider's call surfaced nothing (exception caught and
logged, or null result), and a non-null result is always the successful
value of one of the providers that were actually awaited. -/
theorem c8_orchestrator_error_containment {R : Type} (auto : Bool)
    (getP : Src → ProviderBehavior R) :
    ((∀ s : Src, resultOf (getP s).run = none) → (tryWithFallback auto getP).1 = none) ∧
    (∀ r : R, (tryWithFallback auto getP).1 = some r →
      ∃ s : Src, s ∈ (tryWithFallback auto getP).2 ∧ (getP s).run = Except.ok (some r)) := by
  rw [tryWithFallback]
  exact trySources_spec auto getP _

/-- Concrete providers for the C8 witness: both sources raise. -/
def getPC8 : Src → ProviderBehavior ℕ := fun _ => ⟨true, true, Except.error "boom"⟩

/-- C8 witness: with every provider raising, the orchestrator returns null
rather than propagating. -/
theorem c8_orchestrator_error_containment_witness :
    (tryWithFallback true getPC8).1 = none :=
  (c8_orchestrator_error_containment true getPC8).1 (fun s => by cases s <;> rfl)
